import Mathlib

/-!
Verification of the MCP-Server repository's retrieval-and-orchestration
pipeline against its specification.  The Python sources (`vector_db.py`,
`client.py`, `main.py`) are shallowly embedded: strings become `List Char`,
Python ints become `Int`, fallible operations return `Option`/`Except`, and
the unbounded `while` loop of the chunker is given an explicit fuel
parameter (`none` means the loop did not finish within the given fuel).
-/

/-! ## Python string primitives -/

/-- Whitespace characters recognised by Python's `str.strip` (ASCII part). -/
def wsChar (c : Char) : Bool :=
  c = ' ' || c = '\t' || c = '\n' || c = '\r' || c = '\x0b' || c = '\x0c'

/-- Python `str.strip()`: drop whitespace from both ends. -/
def pyStrip (l : List Char) : List Char :=
  ((l.dropWhile wsChar).reverse.dropWhile wsChar).reverse

/-- Clamp a Python slice index (which may be negative, counting from the
end) to a position in a string of length `n`. -/
def pyIdx (n : Nat) (i : Int) : Nat :=
  if i < 0 then ((n : Int) + i).toNat else min i.toNat n

/-- Python `s[a:b]` on a string of characters. -/
def pySlice (l : List Char) (a b : Int) : List Char :=
  (l.take (pyIdx l.length b)).drop (pyIdx l.length a)

/-- Python `str.lower` (ASCII part). -/
def asciiLower (l : List Char) : List Char :=
  l.map fun c => if 'A' ≤ c && c ≤ 'Z' then Char.ofNat (c.toNat + 32) else c

/-- Test whether `pat` is a prefix of `s` (first argument is `s`). -/
def startsWith : List Char → List Char → Bool
  | _, [] => true
  | [], _ :: _ => false
  | c :: cs, p :: ps => c = p && startsWith cs ps

/-- Scan of Python `s.replace(pat, '')`.  `fuel` only bounds the number
of scan steps so that the recursion is structural: each step consumes at
least one character (`pat` is non-empty at every use), so
`fuel = s.length` never runs out. -/
def removeOccGo (pat : List Char) : Nat → List Char → List Char
  | _, [] => []
  | 0, s => s
  | fuel + 1, c :: rest =>
    if pat ≠ [] ∧ startsWith (c :: rest) pat then
      removeOccGo pat fuel ((c :: rest).drop pat.length)
    else
      c :: removeOccGo pat fuel rest

/-- Python `s.replace(pat, '')`: remove every (left-to-right,
non-overlapping) occurrence of `pat` from `s`. -/
def removeOcc (pat s : List Char) : List Char :=
  removeOccGo pat s.length s

/-- Python `s.find(c)`: index of the first occurrence, `-1` if absent. -/
def pyFind (l : List Char) (c : Char) : Int :=
  match List.findIdx? (fun x => x = c) l with
  | some i => (i : Int)
  | none => -1

/-- Python `s.rfind(c)`: index of the last occurrence, `-1` if absent. -/
def pyRFind (l : List Char) (c : Char) : Int :=
  match List.findIdx? (fun x => x = c) l.reverse with
  | some i => (l.length : Int) - 1 - (i : Int)
  | none => -1

/-! ## `vector_db.py` : `split_text`

`split_text(text, chunk_size=1000, overlap=100)` runs
`while start < len(text): end = min(start+chunk_size, len(text));
chunk = text[start:end].strip(); if chunk: chunks.append(chunk);
start += chunk_size - overlap`.  The loop is embedded with fuel: `none`
means the loop did not terminate within `fuel` iterations. -/

/-- One-to-one embedding of the `while` loop of `split_text`. -/
def split_text_go (fuel : Nat) (text : List Char) (chunk_size overlap : Int)
    (start : Int) (chunks : List (List Char)) : Option (List (List Char)) :=
  match fuel with
  | 0 => none
  | fuel + 1 =>
    if start < (text.length : Int) then
      split_text_go fuel text chunk_size overlap (start + (chunk_size - overlap))
        (if pyStrip (pySlice text start (min (start + chunk_size) (text.length : Int))) = []
         then chunks
         else chunks ++ [pyStrip (pySlice text start (min (start + chunk_size) (text.length : Int)))])
    else
      some chunks

/-- Function `split_text` from `vector_db.py`, with the source's default arguments.
`text.length + 1` iterations of fuel are sufficient whenever the loop
makes positive progress (`overlap < chunk_size`). -/
def split_text (text : List Char) (chunk_size : Int := 1000) (overlap : Int := 100) :
    Option (List (List Char)) :=
  split_text_go (text.length + 1) text chunk_size overlap 0 []

/-- Predicate: `c` occurs as a contiguous segment (substring) of `t`. -/
def segmentOf (c t : List Char) : Prop :=
  ∃ pre post, t = pre ++ (c ++ post)

/-! ## JSON values and a model of `json.loads`

`client.py` and `main.py` exchange JSON; `json.loads` is modelled by a
recursive-descent parser over the JSON core (null, booleans, integer
numbers, strings with the standard escapes, arrays, objects), requiring —
as `json.loads` does — that the whole input be consumed up to trailing
whitespace. -/

/-- A JSON value (Python objects produced by `json.loads`). -/
inductive JsonVal where
  | null
  | bool (b : Bool)
  | num (n : Int)
  | str (s : List Char)
  | arr (xs : List JsonVal)
  | obj (fields : List (List Char × JsonVal))

/-- Whitespace skipped between JSON tokens. -/
def jsonWs (c : Char) : Bool :=
  c = ' ' || c = '\t' || c = '\n' || c = '\r'

/-- Skip inter-token whitespace. -/
def skipWs (l : List Char) : List Char :=
  l.dropWhile jsonWs

/-- Value of one hexadecimal digit (either case), `none` otherwise. -/
def hexDigitVal (c : Char) : Option Nat :=
  if c.isDigit then
    some (c.toNat - 48)
  else
    let lc : Nat := if c.toNat < 97 then c.toNat + 32 else c.toNat
    if 97 ≤ lc && lc ≤ 102 then some (lc - 87) else none

/-- Single-character JSON string escapes. -/
def unescapeChar (c : Char) : Option Char :=
  if c = '"' then some '"'
  else if c = '\\' then some '\\'
  else if c = '/' then some '/'
  else if c = 'n' then some '\n'
  else if c = 't' then some '\t'
  else if c = 'r' then some '\r'
  else if c = 'b' then some (Char.ofNat 8)
  else if c = 'f' then some (Char.ofNat 12)
  else none

/-- Parse the remainder of a JSON string literal (after the opening
quote); returns the decoded characters and the rest of the input. -/
def parseStringRest : List Char → Option (List Char × List Char)
  | [] => none
  | '"' :: rest => some ([], rest)
  | '\\' :: 'u' :: h1 :: h2 :: h3 :: h4 :: rest3 =>
    (match hexDigitVal h1, hexDigitVal h2, hexDigitVal h3, hexDigitVal h4 with
     | some a, some b, some c2, some d =>
       (parseStringRest rest3).map
         (fun p => (Char.ofNat (a * 4096 + b * 256 + c2 * 16 + d) :: p.1, p.2))
     | _, _, _, _ => none)
  | '\\' :: e :: rest2 =>
    (match unescapeChar e with
     | some ch => (parseStringRest rest2).map (fun p => (ch :: p.1, p.2))
     | none => none)
  | c :: rest => (parseStringRest rest).map (fun p => (c :: p.1, p.2))

/-- Accumulate a decimal numeral. -/
def digitsToNat (acc : Nat) : List Char → Nat
  | [] => acc
  | c :: r => digitsToNat (acc * 10 + (c.toNat - '0'.toNat)) r

/-- Parse a JSON (integer) number. -/
def parseNumber (l : List Char) : Option (Int × List Char) :=
  match l with
  | '-' :: r =>
    if (r.takeWhile Char.isDigit) = [] then none
    else some (-(digitsToNat 0 (r.takeWhile Char.isDigit) : Int),
               r.drop (r.takeWhile Char.isDigit).length)
  | _ =>
    if (l.takeWhile Char.isDigit) = [] then none
    else some ((digitsToNat 0 (l.takeWhile Char.isDigit) : Int),
               l.drop (l.takeWhile Char.isDigit).length)

/-- Parse `"key": value (, "key": value)* }`, the input starting at the
first key's opening quote (whitespace already skipped); `pv` parses one
value (it is instantiated with `parseValue` at one less fuel). -/
def parseMembersWith (pv : List Char → Option (JsonVal × List Char)) :
    Nat → List Char → Option (List (List Char × JsonVal) × List Char)
  | 0, _ => none
  | fuel + 1, l =>
    match l with
    | '"' :: r =>
      (match parseStringRest r with
       | none => none
       | some (key, r1) =>
         match skipWs r1 with
         | ':' :: r2 =>
           (match pv r2 with
            | none => none
            | some (v, r3) =>
              match skipWs r3 with
              | ',' :: r4 =>
                (parseMembersWith pv fuel (skipWs r4)).map fun p => ((key, v) :: p.1, p.2)
              | '\x7d' :: r4 => some ([(key, v)], r4)
              | _ => none)
         | _ => none)
    | _ => none

/-- Parse `value (, value)* ]`, the input starting at the first element
(whitespace already skipped); `pv` parses one value. -/
def parseElemsWith (pv : List Char → Option (JsonVal × List Char)) :
    Nat → List Char → Option (List JsonVal × List Char)
  | 0, _ => none
  | fuel + 1, l =>
    match pv l with
    | none => none
    | some (v, r1) =>
      match skipWs r1 with
      | ',' :: r2 => (parseElemsWith pv fuel (skipWs r2)).map fun p => (v :: p.1, p.2)
      | ']' :: r2 => some ([v], r2)
      | _ => none

/-- Parse one JSON value; `fuel` bounds the nesting depth. -/
def parseValue : Nat → List Char → Option (JsonVal × List Char)
  | 0, _ => none
  | fuel + 1, l =>
    match skipWs l with
    | [] => none
    | c :: rest =>
      if c = '\x7b' then
        match skipWs rest with
        | '\x7d' :: r2 => some (JsonVal.obj [], r2)
        | r2 => (parseMembersWith (parseValue fuel) (r2.length + 1) r2).map
            fun p => (JsonVal.obj p.1, p.2)
      else if c = '[' then
        match skipWs rest with
        | ']' :: r2 => some (JsonVal.arr [], r2)
        | r2 => (parseElemsWith (parseValue fuel) (r2.length + 1) r2).map
            fun p => (JsonVal.arr p.1, p.2)
      else if c = '"' then
        (parseStringRest rest).map fun p => (JsonVal.str p.1, p.2)
      else if c = 't' then
        match rest with
        | 'r' :: 'u' :: 'e' :: r => some (JsonVal.bool true, r)
        | _ => none
      else if c = 'f' then
        match rest with
        | 'a' :: 'l' :: 's' :: 'e' :: r => some (JsonVal.bool false, r)
        | _ => none
      else if c = 'n' then
        match rest with
        | 'u' :: 'l' :: 'l' :: r => some (JsonVal.null, r)
        | _ => none
      else if c = '-' || c.isDigit then
        (parseNumber (c :: rest)).map fun p => (JsonVal.num p.1, p.2)
      else none

/-- Model of Python `json.loads`: parse one value and require that only
whitespace remains. -/
def loads (cs : List Char) : Option JsonVal :=
  match parseValue (cs.length + 1) cs with
  | some (v, rest) => if skipWs rest = [] then some v else none
  | none => none

/-! ## `client.py` : `_extract_tool_call` -/

/-- The fence marker `'```json'`. -/
def fenceJson : List Char :=
  ("```json").toList

/-- The fence marker `'```'`. -/
def fenceTicks : List Char :=
  ("```").toList

/-- The opening brace character. -/
def lbrace : Char := '\x7b'

/-- The closing brace character. -/
def rbrace : Char := '\x7d'

/-- Method `MCPClient._extract_tool_call` from `client.py` (lines 170-185):
strip the markdown fences, `find('{')`, `rfind('}') + 1`, slice, and
`json.loads`; the bare `except` makes every failure return `None`. -/
def extract_tool_call (text : List Char) : Option JsonVal :=
  let t := pyStrip (removeOcc fenceTicks (removeOcc fenceJson text))
  let s := pyFind t lbrace
  let e := pyRFind t rbrace + 1
  if s ≠ -1 ∧ e > s then
    loads (pySlice t s e)
  else
    none

/-- Modelled from the spec: the extraction algorithm of §4.1, which is
absent from the code — locate the first `'{'` and scan forward tracking
brace depth to its matching `'}'`.  `depthScan l i d` returns the index
(relative to `l`) of the brace closing depth `d` back to zero. -/
def depthScan : List Char → Nat → Nat → Option Nat
  | [], _, _ => none
  | c :: rest, i, d =>
    if c = lbrace then depthScan rest (i + 1) (d + 1)
    else if c = rbrace then
      if d = 1 then some i else depthScan rest (i + 1) (d - 1)
    else depthScan rest (i + 1) d

/-- Modelled from the spec: §4.1's extractor — strip fence markers,
locate the first `'{'`, take the substring up to the matching `'}'`
found by brace-depth tracking, and parse it. -/
def specExtractToolCall (text : List Char) : Option JsonVal :=
  let t := pyStrip (removeOcc fenceTicks (removeOcc fenceJson text))
  match List.findIdx? (fun c => c = lbrace) t with
  | none => none
  | some s =>
    match depthScan (t.drop s) 0 0 with
    | none => none
    | some e => loads (pySlice t (s : Int) ((s : Int) + (e : Int) + 1))

/-! ## `client.py` : `chat_with_mistral` and the session loop -/

/-- The key `"tool"`. -/
def toolKey : List Char :=
  ("tool").toList

/-- The key `"arguments"`. -/
def argsKey : List Char :=
  ("arguments").toList

/-- The string `"none"`. -/
def noneStr : List Char :=
  ("none").toList

/-- Python `dict.get` on a parsed JSON object (`none` when absent). -/
def jsonGet (v : JsonVal) (key : List Char) : Option JsonVal :=
  match v with
  | JsonVal.obj fields => (fields.find? fun p => p.1 = key).map Prod.snd
  | _ => none

/-- Python `dict.get(key, default)`. -/
def jsonGetD (v : JsonVal) (key : List Char) (d : JsonVal) : JsonVal :=
  (jsonGet v key).getD d

/-- Python truthiness of a JSON value (`if tool_call ...`). -/
def pyTruthy (v : JsonVal) : Bool :=
  match v with
  | JsonVal.null => false
  | JsonVal.bool b => b
  | JsonVal.num n => n ≠ 0
  | JsonVal.str s => !s.isEmpty
  | JsonVal.arr xs => !xs.isEmpty
  | JsonVal.obj fields => !fields.isEmpty

/-- Whether an optional JSON value is the string `"none"` (the Python
comparison `tool_call.get('tool') == 'none'`). -/
def isNoneStr (x : Option JsonVal) : Bool :=
  match x with
  | some (JsonVal.str s) => s = noneStr
  | _ => false

/-- The guard `if tool_call and tool_call.get('tool') != 'none':` of
`chat_with_mistral` (`client.py` line 136). -/
def dispatchCond (tc : Option JsonVal) : Bool :=
  match tc with
  | none => false
  | some v => pyTruthy v && !(isNoneStr (jsonGet v toolKey))

/-- How one turn of `chat_with_mistral` ends. -/
inductive TurnOutcome where
  | conversation
  | toolResponse (data : List Char)
  | apology
  | uncaughtError
  deriving DecidableEq, Repr

/-- One turn of `chat_with_mistral` (`client.py` lines 99-168).  `llm`
models the classification call to `ollama.generate`; `exec` models the
awaited tool execution (`process_tool_call` plus synthesis), `none`
standing for a raised exception.  The `tool_call['tool']` lookup sits
outside the `try`, so a missing `"tool"` key escapes the turn's handler
(`uncaughtError`); exceptions inside the `try` become the apology. -/
def runTurn (llm : List Char → List Char)
    (exec : JsonVal → JsonVal → Option (List Char))
    (userMsg : List Char) : TurnOutcome :=
  let tc := extract_tool_call (llm userMsg)
  if dispatchCond tc then
    match tc with
    | none => TurnOutcome.conversation
    | some v =>
      match jsonGet v toolKey with
      | none => TurnOutcome.uncaughtError
      | some nameVal =>
        match exec nameVal (jsonGetD v argsKey (JsonVal.obj [])) with
        | none => TurnOutcome.apology
        | some data => TurnOutcome.toolResponse data
  else
    TurnOutcome.conversation

/-- An event at the REPL prompt: a line of input, or an interrupt
(Ctrl-C) raised while blocked in `input()`. -/
inductive Event where
  | line (s : List Char)
  | interrupt
  deriving Repr

/-- Why the session ended. -/
inductive ExitReason where
  | sentinel
  | interrupted
  | crashed
  deriving DecidableEq, Repr

/-- The observable result of running `main`'s loop: how it exited
(`none` = still waiting for input), whether `client.close()` ran, and
the outcome of each completed turn. -/
structure SessionRun where
  exit : Option ExitReason
  closed : Bool
  outcomes : List TurnOutcome
  deriving Repr

/-- The exit sentinels of `main` (`client.py` line 213). -/
def sentinels : List (List Char) :=
  [("quit").toList, ("exit").toList, ("bye").toList, ("goodbye").toList]

/-- The `try/while/except KeyboardInterrupt/finally` loop of `main`
(`client.py` lines 211-228).  Each exit path runs the `finally`, hence
sets `closed`; an exception other than `KeyboardInterrupt` escaping a
turn (`uncaughtError`) also unwinds through the `finally` and crashes. -/
def runSession (llm : List Char → List Char)
    (exec : JsonVal → JsonVal → Option (List Char)) : List Event → SessionRun
  | [] => { exit := none, closed := false, outcomes := [] }
  | Event.interrupt :: _ =>
    { exit := some ExitReason.interrupted, closed := true, outcomes := [] }
  | Event.line s :: rest =>
    if asciiLower (pyStrip s) ∈ sentinels then
      { exit := some ExitReason.sentinel, closed := true, outcomes := [] }
    else if pyStrip s = [] then
      runSession llm exec rest
    else
      match runTurn llm exec (pyStrip s) with
      | TurnOutcome.uncaughtError =>
        { exit := some ExitReason.crashed, closed := true,
          outcomes := [TurnOutcome.uncaughtError] }
      | o =>
        { exit := (runSession llm exec rest).exit,
          closed := (runSession llm exec rest).closed,
          outcomes := o :: (runSession llm exec rest).outcomes }

/-- The three tool names registered with `@mcp.tool()` in `main.py`. -/
def toolCatalog : List (List Char) :=
  [("get_latest_news").toList, ("get_college_notifications").toList,
   ("query_knowledge_base").toList]

/-! ## `main.py` : `query_knowledge_base` -/

/-- The vector-store collection, reduced to what `query_knowledge_base`
uses: `query(query_texts=[q], n_results=n)['documents']` — a list of
document lists (one per query text) — or a raised exception, carried as
`Except.error` with the exception's message. -/
structure Collection where
  query : List Char → Int → Except (List Char) (List (List (List Char)))

/-- The key `"error"`. -/
def errKey : List Char :=
  ("error").toList

/-- The payload `{"error": msg}`. -/
def errorPayload (msg : List Char) : JsonVal :=
  JsonVal.obj [(errKey, JsonVal.str msg)]

/-- The message returned when the collection is unavailable. -/
def notAvailableMsg : List Char :=
  ("Cannot query. ChromaDB collection is not available.").toList

/-- The prefix of the message built from a caught query exception. -/
def queryErrMsgFor (e : List Char) : List Char :=
  ("An error occurred during the query: ").toList ++ e

/-- The message of the `IndexError` raised by `results['documents'][0]`
when no document list is returned. -/
def indexErrMsg : List Char :=
  ("list index out of range").toList

/-- Tool `query_knowledge_base` from `main.py` (lines 27-43).  The payload
(a Python string of JSON) is modelled as the JSON value it serialises:
either the array of document texts, or the `{"error": ...}` object built
by the unavailability guard or the `except` clause. -/
def query_knowledge_base (collection : Option Collection) (query_text : List Char)
    (n_results : Int := 3) : JsonVal :=
  match collection with
  | none => errorPayload notAvailableMsg
  | some col =>
    match col.query query_text n_results with
    | Except.error e => errorPayload (queryErrMsgFor e)
    | Except.ok docs =>
      match docs with
      | [] => errorPayload (queryErrMsgFor indexErrMsg)
      | d0 :: _ => JsonVal.arr (d0.map JsonVal.str)

/-! ## `vector_db.py` : chunk ids in `add_pdf_to_vectordb` -/

/-- The literal `"_chunk_"` of the id f-string. -/
def sepChunk : List Char :=
  ("_chunk_").toList

/-- The id `f"{base_name}_chunk_{i}"` (`vector_db.py` line 58). -/
def chunk_id (base : List Char) (i : Nat) : List Char :=
  base ++ sepChunk ++ (Nat.repr i).toList

/-- The list `ids = [f"{base_name}_chunk_{i}" for i in range(len(chunks))]`. -/
def chunk_ids (base : List Char) (n : Nat) : List (List Char) :=
  (List.range n).map (chunk_id base)

/-- The id sequence `add_pdf_to_vectordb` generates for a document with
basename `base` and extracted text `text` (chunked with the default
`chunk_size`/`overlap`). -/
def ingestIds (base : List Char) (text : List Char) : Option (List (List Char)) :=
  (split_text text).map fun cs => chunk_ids base cs.length

/-! ## List and string helper lemmas -/

theorem mem_dropWhile_of_neg {p : Char → Bool} {c : Char} :
    ∀ {l : List Char}, c ∈ l → p c = false → c ∈ l.dropWhile p
  | [], h, _ => absurd h (List.not_mem_nil c)
  | a :: t, h, hc => by
    by_cases ha : p a
    · rw [List.dropWhile_cons_of_pos ha]
      rcases List.mem_cons.mp h with rfl | ht
      · rw [ha] at hc; exact absurd hc (by simp)
      · exact mem_dropWhile_of_neg ht hc
    · rw [List.dropWhile_cons_of_neg ha]
      exact h

theorem mem_of_mem_dropWhile {p : Char → Bool} {c : Char} :
    ∀ {l : List Char}, c ∈ l.dropWhile p → c ∈ l
  | [], h => h
  | a :: t, h => by
    by_cases ha : p a
    · rw [List.dropWhile_cons_of_pos ha] at h
      exact List.mem_cons_of_mem a (mem_of_mem_dropWhile h)
    · rwa [List.dropWhile_cons_of_neg ha] at h

theorem mem_pyStrip {c : Char} {l : List Char} (h : c ∈ l) (hc : wsChar c = false) :
    c ∈ pyStrip l := by
  unfold pyStrip
  rw [List.mem_reverse]
  exact mem_dropWhile_of_neg (List.mem_reverse.mpr (mem_dropWhile_of_neg h hc)) hc

theorem mem_of_mem_pyStrip {c : Char} {l : List Char} (h : c ∈ pyStrip l) : c ∈ l := by
  unfold pyStrip at h
  rw [List.mem_reverse] at h
  exact mem_of_mem_dropWhile (List.mem_reverse.mp (mem_of_mem_dropWhile h))

theorem dropWhile_dropWhile (p : Char → Bool) (l : List Char) :
    (l.dropWhile p).dropWhile p = l.dropWhile p := by
  induction l with
  | nil => rfl
  | cons a t ih =>
    by_cases h : p a
    · rw [List.dropWhile_cons_of_pos h, ih]
    · rw [List.dropWhile_cons_of_neg h, List.dropWhile_cons_of_neg h]

theorem dropWhile_eq_cons_neg {p : Char → Bool} :
    ∀ {l : List Char} {x : Char} {xs : List Char}, l.dropWhile p = x :: xs → p x = false
  | [], x, xs, h => by simp at h
  | a :: t, x, xs, h => by
    by_cases ha : p a
    · rw [List.dropWhile_cons_of_pos ha] at h
      exact dropWhile_eq_cons_neg h
    · rw [List.dropWhile_cons_of_neg ha] at h
      injection h with h1 h2
      subst h1
      exact Bool.eq_false_iff.mpr ha

theorem pyStrip_idem (l : List Char) : pyStrip (pyStrip l) = pyStrip l := by
  rcases hs : (l.dropWhile wsChar).reverse.dropWhile wsChar with _ | ⟨a, u⟩
  · unfold pyStrip
    rw [hs]
    rfl
  · obtain ⟨t2, ht2⟩ := @List.dropWhile_suffix Char ((l.dropWhile wsChar).reverse) wsChar
    rw [hs] at ht2
    have hr : l.dropWhile wsChar = (a :: u).reverse ++ t2.reverse := by
      have h2 := congrArg List.reverse ht2
      simpa using h2.symm
    rcases hrev : (a :: u).reverse with _ | ⟨b, u'⟩
    · exact absurd hrev (by simp)
    · have hb : wsChar b = false := by
        apply @dropWhile_eq_cons_neg wsChar l b (u' ++ t2.reverse)
        rw [hr, hrev]
        rfl
      have hd : List.dropWhile wsChar (a :: u) = a :: u := by
        rw [← hs, dropWhile_dropWhile]
      unfold pyStrip
      rw [hs, hrev, List.dropWhile_cons_of_neg (by simp [hb]), ← hrev,
        List.reverse_reverse, hd, hrev]

theorem segmentOf_trans {a b c : List Char} (h1 : segmentOf a b) (h2 : segmentOf b c) :
    segmentOf a c := by
  obtain ⟨p1, q1, rfl⟩ := h1
  obtain ⟨p2, q2, rfl⟩ := h2
  exact ⟨p2 ++ p1, q1 ++ q2, by simp⟩

theorem pySlice_segmentOf (l : List Char) (a b : Int) : segmentOf (pySlice l a b) l := by
  unfold pySlice
  refine ⟨(l.take (pyIdx l.length b)).take (pyIdx l.length a), l.drop (pyIdx l.length b), ?_⟩
  rw [← List.append_assoc, List.take_append_drop, List.take_append_drop]

theorem pyStrip_segmentOf (l : List Char) : segmentOf (pyStrip l) l := by
  obtain ⟨t1, ht1⟩ := @List.dropWhile_suffix Char l wsChar
  obtain ⟨t2, ht2⟩ := @List.dropWhile_suffix Char ((l.dropWhile wsChar).reverse) wsChar
  refine ⟨t1, t2.reverse, ?_⟩
  have hr : l.dropWhile wsChar = pyStrip l ++ t2.reverse := by
    have h2 := congrArg List.reverse ht2
    unfold pyStrip
    simpa using h2.symm
  conv_lhs => rw [← ht1, hr]

/-! ## Lemmas about the chunking loop -/

theorem pyIdx_of_nonneg (n : Nat) (a : Int) (h0 : 0 ≤ a) (hn : a ≤ (n : Int)) :
    pyIdx n a = a.toNat := by
  unfold pyIdx
  rw [if_neg (by omega)]
  omega

theorem getElem_mem_pySlice (text : List Char) (a b : Int) (i : Nat) (hi : i < text.length)
    (ha0 : 0 ≤ a) (hai : a ≤ (i : Int)) (hib : (i : Int) < b) (hb : b ≤ (text.length : Int)) :
    text[i] ∈ pySlice text a b := by
  have ha' : pyIdx text.length a = a.toNat := pyIdx_of_nonneg _ _ ha0 (by omega)
  have hb' : pyIdx text.length b = b.toNat := pyIdx_of_nonneg _ _ (by omega) (by omega)
  unfold pySlice
  rw [ha', hb']
  have hlen : i - a.toNat < ((text.take b.toNat).drop a.toNat).length := by
    rw [List.length_drop, List.length_take]
    omega
  have hmem := List.getElem_mem hlen
  rw [List.getElem_drop, List.getElem_take] at hmem
  have hidx : a.toNat + (i - a.toNat) = i := by omega
  simp only [hidx] at hmem
  exact hmem

theorem split_text_go_total (text : List Char) (cs ov : Int) (hstep : 0 < cs - ov) :
    ∀ (fuel : Nat) (start : Int) (chunks : List (List Char)),
      ((text.length : Int) - start).toNat < fuel →
      ∃ r, split_text_go fuel text cs ov start chunks = some r
  | 0, _, _, h => absurd h (by omega)
  | fuel + 1, start, chunks, h => by
    unfold split_text_go
    by_cases hlt : start < (text.length : Int)
    · rw [if_pos hlt]
      exact split_text_go_total text cs ov hstep fuel _ _ (by omega)
    · rw [if_neg hlt]
      exact ⟨chunks, rfl⟩

theorem split_text_go_acc (text : List Char) (cs ov : Int) :
    ∀ (fuel : Nat) (start : Int) (chunks r : List (List Char)),
      split_text_go fuel text cs ov start chunks = some r →
      ∃ extra, r = chunks ++ extra
  | 0, _, _, _, h => by simp [split_text_go] at h
  | fuel + 1, start, chunks, r, h => by
    unfold split_text_go at h
    by_cases hlt : start < (text.length : Int)
    · rw [if_pos hlt] at h
      by_cases hc :
          pyStrip (pySlice text start (min (start + cs) (text.length : Int))) = []
      · rw [if_pos hc] at h
        exact split_text_go_acc text cs ov fuel _ chunks r h
      · rw [if_neg hc] at h
        obtain ⟨e2, he2⟩ := split_text_go_acc text cs ov fuel _ _ r h
        refine ⟨pyStrip (pySlice text start (min (start + cs) (text.length : Int))) :: e2, ?_⟩
        rw [he2]
        simp
    · rw [if_neg hlt] at h
      injection h with h1
      exact ⟨[], by rw [← h1]; simp⟩

theorem split_text_go_quality (text : List Char) (cs ov : Int) :
    ∀ (fuel : Nat) (start : Int) (chunks r : List (List Char)),
      split_text_go fuel text cs ov start chunks = some r →
      ∀ c ∈ r, c ∈ chunks ∨ (c ≠ [] ∧ pyStrip c = c ∧ segmentOf c text)
  | 0, _, _, _, h => by simp [split_text_go] at h
  | fuel + 1, start, chunks, r, h => by
    unfold split_text_go at h
    by_cases hlt : start < (text.length : Int)
    · rw [if_pos hlt] at h
      by_cases hc :
          pyStrip (pySlice text start (min (start + cs) (text.length : Int))) = []
      · rw [if_pos hc] at h
        exact split_text_go_quality text cs ov fuel _ chunks r h
      · rw [if_neg hc] at h
        intro c hcr
        rcases split_text_go_quality text cs ov fuel _ _ r h c hcr with hin | hq
        · rcases List.mem_append.mp hin with hin' | hnc
          · exact Or.inl hin'
          · right
            have hceq : c = pyStrip (pySlice text start (min (start + cs) (text.length : Int))) := by
              simpa using hnc
            subst hceq
            exact ⟨hc, pyStrip_idem _,
              segmentOf_trans (pyStrip_segmentOf _) (pySlice_segmentOf _ _ _)⟩
        · exact Or.inr hq
    · rw [if_neg hlt] at h
      injection h with h1
      subst h1
      exact fun c hcr => Or.inl hcr

theorem split_text_go_cover (text : List Char) (cs ov : Int)
    (hcs : 0 < cs) (hov : 0 ≤ ov) (hstep : 0 < cs - ov) :
    ∀ (fuel : Nat) (start : Int) (chunks r : List (List Char)),
      0 ≤ start →
      split_text_go fuel text cs ov start chunks = some r →
      ∀ (i : Nat) (hi : i < text.length), start ≤ (i : Int) →
        wsChar text[i] = false → ∃ c ∈ r, text[i] ∈ c
  | 0, _, _, _, _, h => by simp [split_text_go] at h
  | fuel + 1, start, chunks, r, hstart, h => by
    intro i hi hile hws
    unfold split_text_go at h
    by_cases hlt : start < (text.length : Int)
    · rw [if_pos hlt] at h
      by_cases hwin : (i : Int) < min (start + cs) (text.length : Int)
      · have hmem : text[i] ∈ pySlice text start (min (start + cs) (text.length : Int)) :=
          getElem_mem_pySlice text start _ i hi hstart hile hwin (by omega)
        have hchunk : text[i] ∈
            pyStrip (pySlice text start (min (start + cs) (text.length : Int))) :=
          mem_pyStrip hmem hws
        have hne : pyStrip (pySlice text start (min (start + cs) (text.length : Int))) ≠ [] := by
          intro h0
          rw [h0] at hchunk
          exact absurd hchunk (List.not_mem_nil _)
        rw [if_neg hne] at h
        obtain ⟨extra, hex⟩ := split_text_go_acc text cs ov fuel _ _ r h
        refine ⟨pyStrip (pySlice text start (min (start + cs) (text.length : Int))), ?_, hchunk⟩
        rw [hex]
        simp
      · have hile' : start + (cs - ov) ≤ (i : Int) := by omega
        exact split_text_go_cover text cs ov hcs hov hstep fuel _ _ r (by omega) h i hi hile' hws
    · exfalso
      omega

/-! ## Divergence of the unguarded chunking loop -/

theorem split_text_go_diverges (text : List Char) (cs ov : Int)
    (hstep : cs - ov ≤ 0) (hne : 0 < text.length) :
    ∀ (fuel : Nat) (start : Int), start ≤ 0 →
      ∀ chunks, split_text_go fuel text cs ov start chunks = none
  | 0, _, _, _ => rfl
  | fuel + 1, start, hst, chunks => by
    unfold split_text_go
    rw [if_pos (by omega)]
    exact split_text_go_diverges text cs ov hstep hne fuel _ (by omega) _

/-! ## Chunk-id lemmas -/

theorem digitChar_ne_underscore (m : Nat) : Nat.digitChar m ≠ '_' := by
  by_cases h : m < 16
  · interval_cases m <;> decide
  · unfold Nat.digitChar
    iterate 16 rw [if_neg (by omega)]
    decide

theorem toDigitsCore_no_underscore (b : Nat) :
    ∀ (fuel n : Nat) (acc : List Char), '_' ∉ acc → '_' ∉ Nat.toDigitsCore b fuel n acc
  | 0, _, _, h => h
  | fuel + 1, n, acc, h => by
    unfold Nat.toDigitsCore
    by_cases h0 : n / b = 0
    · rw [if_pos h0]
      intro hmem
      rcases List.mem_cons.mp hmem with heq | hmem2
      · exact digitChar_ne_underscore (n % b) heq.symm
      · exact h hmem2
    · rw [if_neg h0]
      apply toDigitsCore_no_underscore b fuel (n / b)
      intro hmem
      rcases List.mem_cons.mp hmem with heq | hmem2
      · exact digitChar_ne_underscore (n % b) heq.symm
      · exact h hmem2

theorem repr_no_underscore (n : Nat) : '_' ∉ (Nat.repr n).toList :=
  toDigitsCore_no_underscore 10 (n + 1) n [] (List.not_mem_nil _)

theorem sep_eq_of_mid {u x y : List Char} (h : sepChunk ++ x = u ++ (sepChunk ++ y))
    (hx : '_' ∉ x) (hy : '_' ∉ y) : u = [] := by
  rcases u with _ | ⟨c, u'⟩
  · rfl
  · exfalso
    have hsep : sepChunk = '_' :: ['c', 'h', 'u', 'n', 'k', '_'] := rfl
    have hc : c = '_' := by
      rw [hsep] at h
      simp only [List.cons_append] at h
      injection h with h1 _
      exact h1.symm
    have hcount := congrArg (List.count '_') h
    simp only [List.count_append] at hcount
    have hx0 : List.count '_' x = 0 := List.count_eq_zero.mpr hx
    have hy0 : List.count '_' y = 0 := List.count_eq_zero.mpr hy
    have hsc : List.count '_' sepChunk = 2 := by decide
    have hcu : List.count '_' (c :: u') = 0 := by omega
    exact absurd (List.count_eq_zero.mp hcu) (by simp [hc])

theorem chunk_id_base_eq {a b : List Char} {i j : Nat}
    (h : chunk_id a i = chunk_id b j) : a = b := by
  unfold chunk_id at h
  rw [List.append_assoc, List.append_assoc] at h
  rcases List.append_eq_append_iff.mp h with ⟨u, hu1, hu2⟩ | ⟨u, hu1, hu2⟩
  · have h0 : u = [] := sep_eq_of_mid hu2 (repr_no_underscore i) (repr_no_underscore j)
    rw [hu1, h0, List.append_nil]
  · have h0 : u = [] := sep_eq_of_mid hu2 (repr_no_underscore j) (repr_no_underscore i)
    rw [hu1, h0, List.append_nil]

/-! ## Extractor lemmas -/

theorem mem_of_mem_removeOccGo (pat : List Char) (c : Char) :
    ∀ (fuel : Nat) (s : List Char), c ∈ removeOccGo pat fuel s → c ∈ s := by
  intro fuel
  induction fuel with
  | zero =>
    intro s h
    cases s with
    | nil => simpa [removeOccGo] using h
    | cons a rest => simpa [removeOccGo] using h
  | succ n ih =>
    intro s h
    cases s with
    | nil => simpa [removeOccGo] using h
    | cons a rest =>
      rw [removeOccGo] at h
      by_cases hcond : pat ≠ [] ∧ startsWith (a :: rest) pat
      · rw [if_pos hcond] at h
        exact List.mem_of_mem_drop (ih _ h)
      · rw [if_neg hcond] at h
        rcases List.mem_cons.mp h with rfl | h2
        · exact List.mem_cons_self _ _
        · exact List.mem_cons_of_mem _ (ih _ h2)

theorem mem_of_mem_removeOcc (pat : List Char) (c : Char) (s : List Char)
    (h : c ∈ removeOcc pat s) : c ∈ s :=
  mem_of_mem_removeOccGo pat c s.length s h

theorem extract_tool_call_eq_none_of_no_brace (text : List Char) (h : lbrace ∉ text) :
    extract_tool_call text = none := by
  have h1 : lbrace ∉ pyStrip (removeOcc fenceTicks (removeOcc fenceJson text)) := by
    intro hmem
    exact h (mem_of_mem_removeOcc fenceJson lbrace text
      (mem_of_mem_removeOcc fenceTicks lbrace _ (mem_of_mem_pyStrip hmem)))
  have hfind : List.findIdx? (fun x => x = lbrace)
      (pyStrip (removeOcc fenceTicks (removeOcc fenceJson text))) = none := by
    apply List.findIdx?_eq_none_iff.mpr
    intro x hx
    by_contra hxx
    rw [Bool.not_eq_false, decide_eq_true_eq] at hxx
    exact h1 (hxx ▸ hx)
  simp [extract_tool_call, pyFind, hfind]

/-! ## Turn and session lemmas -/

theorem isNoneStr_eq_false_of_ne {nameVal : JsonVal} (h : nameVal ≠ JsonVal.str noneStr) :
    isNoneStr (some nameVal) = false := by
  cases nameVal with
  | str s =>
    simp only [isNoneStr, decide_eq_false_iff_not]
    intro hs
    exact h (by rw [hs])
  | null => rfl
  | bool b => rfl
  | num n => rfl
  | arr xs => rfl
  | obj fields => rfl

theorem runTurn_eq_of_dispatch {llm : List Char → List Char}
    {exec : JsonVal → JsonVal → Option (List Char)} {u : List Char} {v nameVal : JsonVal}
    (hv : extract_tool_call (llm u) = some v)
    (htr : pyTruthy v = true)
    (ht : jsonGet v toolKey = some nameVal)
    (hname : nameVal ≠ JsonVal.str noneStr) :
    runTurn llm exec u =
      (match exec nameVal (jsonGetD v argsKey (JsonVal.obj [])) with
       | none => TurnOutcome.apology
       | some data => TurnOutcome.toolResponse data) := by
  unfold runTurn
  simp only [hv, dispatchCond, htr, ht, isNoneStr_eq_false_of_ne hname,
    Bool.not_false, Bool.and_self, if_true]

theorem runSession_cons_of_turn {llm : List Char → List Char}
    {exec : JsonVal → JsonVal → Option (List Char)}
    {s : List Char} {rest : List Event} {o : TurnOutcome}
    (hsent : asciiLower (pyStrip s) ∉ sentinels) (hne : pyStrip s ≠ [])
    (ho : runTurn llm exec (pyStrip s) = o) (hno : o ≠ TurnOutcome.uncaughtError) :
    runSession llm exec (Event.line s :: rest) =
      { exit := (runSession llm exec rest).exit,
        closed := (runSession llm exec rest).closed,
        outcomes := o :: (runSession llm exec rest).outcomes } := by
  conv_lhs => unfold runSession
  rw [if_neg hsent, if_neg hne, ho]
  cases o with
  | uncaughtError => exact absurd rfl hno
  | conversation => rfl
  | apology => rfl
  | toolResponse d => rfl

/-! ## Claim theorems -/

/-- C1: the claim states that chunking with `overlap ≥ chunk_size` fails
fast with a configuration error and produces zero chunks.  The code has
no such guard: `split_text`'s loop makes zero or negative progress, so
for every non-empty text the loop never exits — `split_text_go` returns
`none` (loop unfinished) for EVERY fuel bound, i.e. the code loops
indefinitely instead of failing fast. -/
theorem C1_no_guard_loop_forever (text : List Char) (cs ov : Int) (fuel : Nat)
    (hov : cs ≤ ov) (hne : text ≠ []) :
    split_text_go fuel text cs ov 0 [] = none :=
  split_text_go_diverges text cs ov (by omega) (List.length_pos.mpr hne) fuel 0 le_rfl []

/-- Witness for C1 at `text = "ab"`, `chunk_size = 1`, `overlap = 1`. -/
theorem C1_no_guard_loop_forever_witness :
    split_text_go 5 (("ab").toList) 1 1 0 [] = none :=
  C1_no_guard_loop_forever (("ab").toList) 1 1 5 (by decide) (by decide)

/-- C2: for every text and every valid configuration
(`0 < overlap < chunk_size`), the chunker terminates; every
non-whitespace character of the text occurs in at least one produced
chunk, and every produced chunk is a non-empty, trimmed
(`pyStrip`-fixed) substring of the text. -/
theorem C2_coverage (text : List Char) (cs ov : Int)
    (hov0 : 0 < ov) (hovcs : ov < cs) :
    ∃ chunks, split_text text cs ov = some chunks ∧
      (∀ (i : Nat) (hi : i < text.length), wsChar text[i] = false →
        ∃ c ∈ chunks, text[i] ∈ c) ∧
      (∀ c ∈ chunks, c ≠ [] ∧ pyStrip c = c ∧ segmentOf c text) := by
  obtain ⟨r, hr⟩ :=
    split_text_go_total text cs ov (by omega) (text.length + 1) 0 [] (by omega)
  refine ⟨r, hr, ?_, ?_⟩
  · intro i hi hws
    exact split_text_go_cover text cs ov (by omega) (by omega) (by omega)
      (text.length + 1) 0 [] r le_rfl hr i hi (by omega) hws
  · intro c hc
    rcases split_text_go_quality text cs ov (text.length + 1) 0 [] r hr c hc with h0 | hq
    · exact absurd h0 (List.not_mem_nil c)
    · exact hq

/-- Witness for C2 at `text = "a b"`, `chunk_size = 2`, `overlap = 1`. -/
theorem C2_coverage_witness :
    ∃ chunks, split_text (("a b").toList) 2 1 = some chunks ∧
      (∀ (i : Nat) (hi : i < (("a b").toList).length),
        wsChar (("a b").toList)[i] = false → ∃ c ∈ chunks, (("a b").toList)[i] ∈ c) ∧
      (∀ c ∈ chunks, c ≠ [] ∧ pyStrip c = c ∧ segmentOf c (("a b").toList)) :=
  C2_coverage (("a b").toList) 2 1 (by decide) (by decide)

/-- C3: the claim (and spec §4.1) require a brace-depth-tracking scan to
the matching `'}'`; the code instead takes the LAST `'}'` (`rfind`) and
parses the whole span.  On an input consisting of one complete JSON
object followed by a second JSON-like fragment, the spec's algorithm
(`specExtractToolCall`) returns the first object, while the code's
extractor feeds the whole misparsed span to the parser and returns
`None`. -/
theorem C3_last_brace_misparse :
    extract_tool_call (("\x7b\"tool\": \"none\"\x7d also \x7b\"x\": 1\x7d").toList) = none ∧
    specExtractToolCall (("\x7b\"tool\": \"none\"\x7d also \x7b\"x\": 1\x7d").toList) =
      some (JsonVal.obj [(toolKey, JsonVal.str noneStr)]) :=
  ⟨rfl, rfl⟩

/-- C4: extraction robustness — the fenced `{"tool":"none"}` wrapped in
extra prose yields the object `{"tool":"none"}`, and any text containing
no `'{'` yields `none`.  (The bare `except` of the source is embedded as
a total `Option`-valued function, so no input can raise.) -/
theorem C4_extractor_robust :
    extract_tool_call
        (("Sure! ```json\n\x7b\"tool\": \"none\"\x7d\n``` hope that helps").toList) =
      some (JsonVal.obj [(toolKey, JsonVal.str noneStr)]) ∧
    (∀ text : List Char, lbrace ∉ text → extract_tool_call text = none) :=
  ⟨rfl, fun text h => extract_tool_call_eq_none_of_no_brace text h⟩

/-- Witness for C4's universally quantified part at a concrete text. -/
theorem C4_extractor_robust_witness :
    extract_tool_call (("no braces here").toList) = none :=
  C4_extractor_robust.2 (("no braces here").toList) (by decide)

theorem runSession_sentinel {llm : List Char → List Char}
    {exec : JsonVal → JsonVal → Option (List Char)} {s : List Char} {rest : List Event}
    (hsent : asciiLower (pyStrip s) ∈ sentinels) :
    runSession llm exec (Event.line s :: rest) =
      { exit := some ExitReason.sentinel, closed := true, outcomes := [] } := by
  conv_lhs => unfold runSession
  rw [if_pos hsent]

theorem runSession_skip {llm : List Char → List Char}
    {exec : JsonVal → JsonVal → Option (List Char)} {s : List Char} {rest : List Event}
    (hsent : asciiLower (pyStrip s) ∉ sentinels) (hne : pyStrip s = []) :
    runSession llm exec (Event.line s :: rest) = runSession llm exec rest := by
  conv_lhs => unfold runSession
  rw [if_neg hsent, if_pos hne]

theorem runSession_crash {llm : List Char → List Char}
    {exec : JsonVal → JsonVal → Option (List Char)} {s : List Char} {rest : List Event}
    (hsent : asciiLower (pyStrip s) ∉ sentinels) (hne : pyStrip s ≠ [])
    (hrt : runTurn llm exec (pyStrip s) = TurnOutcome.uncaughtError) :
    runSession llm exec (Event.line s :: rest) =
      { exit := some ExitReason.crashed, closed := true,
        outcomes := [TurnOutcome.uncaughtError] } := by
  conv_lhs => unfold runSession
  rw [if_neg hsent, if_neg hne, hrt]

/-- C5: counterexample — for a model output naming the non-catalog tool
"make_coffee", classification does NOT yield 'none': the extractor
returns the object unchanged (it performs no catalog validation), the
dispatch guard passes, and the turn is not the conversational branch —
so a ToolCall whose tool is neither "none" nor a catalog name does reach
the dispatch step, contradicting the claim. -/
theorem C5_counterexample :
    extract_tool_call (("\x7b\"tool\": \"make_coffee\"\x7d").toList) =
      some (JsonVal.obj [(toolKey, JsonVal.str (("make_coffee").toList))]) ∧
    dispatchCond (extract_tool_call (("\x7b\"tool\": \"make_coffee\"\x7d").toList)) = true ∧
    (("make_coffee").toList) ∉ toolCatalog ∧
    runTurn (fun _ => ("\x7b\"tool\": \"make_coffee\"\x7d").toList) (fun _ _ => none)
      (("hi").toList) ≠ TurnOutcome.conversation :=
  ⟨rfl, rfl, by decide, by decide⟩

/-- C5 (amended): the extractor performs no catalog validation, so any
truthy extracted object whose "tool" field differs from the string
"none" takes the dispatch branch with that (possibly unknown) name; the
turn's outcome is then decided solely by the dispatched execution —
apology if it raises, tool response otherwise (per C6, an unknown name
makes the backend raise and so yields the apology). -/
theorem C5_amended_no_catalog_validation (llm : List Char → List Char)
    (exec : JsonVal → JsonVal → Option (List Char)) (u : List Char) (v nameVal : JsonVal)
    (hv : extract_tool_call (llm u) = some v) (htr : pyTruthy v = true)
    (ht : jsonGet v toolKey = some nameVal) (hname : nameVal ≠ JsonVal.str noneStr) :
    runTurn llm exec u =
      (match exec nameVal (jsonGetD v argsKey (JsonVal.obj [])) with
       | none => TurnOutcome.apology
       | some data => TurnOutcome.toolResponse data) :=
  runTurn_eq_of_dispatch hv htr ht hname

/-- Witness for C5's amended theorem at the "make_coffee" output and a
failing backend. -/
theorem C5_amended_no_catalog_validation_witness :
    runTurn (fun _ => ("\x7b\"tool\": \"make_coffee\"\x7d").toList) (fun _ _ => none)
      (("hi").toList) = TurnOutcome.apology :=
  C5_amended_no_catalog_validation (fun _ => ("\x7b\"tool\": \"make_coffee\"\x7d").toList)
    (fun _ _ => none) (("hi").toList)
    (JsonVal.obj [(toolKey, JsonVal.str (("make_coffee").toList))])
    (JsonVal.str (("make_coffee").toList)) rfl rfl rfl
    (by intro hcontr; injection hcontr with hs; exact absurd hs (by decide))

/-- C6: when the dispatched tool invocation raises (the `exec` oracle
fails — backend error, missing argument, or unknown tool name reaching
the dispatcher), the exception is caught inside the turn's `try` and the
turn ends with the single apology outcome; at session level the turn is
recorded and the loop continues with the remaining events, so no such
turn failure terminates the process. -/
theorem C6_tool_failure_apology (llm : List Char → List Char)
    (exec : JsonVal → JsonVal → Option (List Char)) (s : List Char) (rest : List Event)
    (v nameVal : JsonVal)
    (hv : extract_tool_call (llm (pyStrip s)) = some v) (htr : pyTruthy v = true)
    (ht : jsonGet v toolKey = some nameVal) (hname : nameVal ≠ JsonVal.str noneStr)
    (hexec : exec nameVal (jsonGetD v argsKey (JsonVal.obj [])) = none)
    (hsent : asciiLower (pyStrip s) ∉ sentinels) (hne : pyStrip s ≠ []) :
    runTurn llm exec (pyStrip s) = TurnOutcome.apology ∧
    runSession llm exec (Event.line s :: rest) =
      { exit := (runSession llm exec rest).exit,
        closed := (runSession llm exec rest).closed,
        outcomes := TurnOutcome.apology :: (runSession llm exec rest).outcomes } := by
  have hturn : runTurn llm exec (pyStrip s) = TurnOutcome.apology := by
    rw [runTurn_eq_of_dispatch hv htr ht hname, hexec]
  exact ⟨hturn, runSession_cons_of_turn hsent hne hturn
    (fun hx => TurnOutcome.noConfusion hx)⟩

/-- Witness for C6 at a turn whose classifier output names the unknown
tool "get_weather" and whose backend raises, followed by a quit line. -/
theorem C6_tool_failure_apology_witness :
    runTurn (fun _ => ("\x7b\"tool\": \"get_weather\"\x7d").toList) (fun _ _ => none)
      (pyStrip (("hello").toList)) = TurnOutcome.apology ∧
    runSession (fun _ => ("\x7b\"tool\": \"get_weather\"\x7d").toList) (fun _ _ => none)
      (Event.line (("hello").toList) :: [Event.line (("quit").toList)]) =
      { exit := (runSession (fun _ => ("\x7b\"tool\": \"get_weather\"\x7d").toList)
          (fun _ _ => none) [Event.line (("quit").toList)]).exit,
        closed := (runSession (fun _ => ("\x7b\"tool\": \"get_weather\"\x7d").toList)
          (fun _ _ => none) [Event.line (("quit").toList)]).closed,
        outcomes := TurnOutcome.apology ::
          (runSession (fun _ => ("\x7b\"tool\": \"get_weather\"\x7d").toList)
            (fun _ _ => none) [Event.line (("quit").toList)]).outcomes } :=
  C6_tool_failure_apology (fun _ => ("\x7b\"tool\": \"get_weather\"\x7d").toList)
    (fun _ _ => none) (("hello").toList) [Event.line (("quit").toList)]
    (JsonVal.obj [(toolKey, JsonVal.str (("get_weather").toList))])
    (JsonVal.str (("get_weather").toList)) rfl rfl rfl
    (by intro hcontr; injection hcontr with hs; exact absurd hs (by decide))
    rfl (by decide) (by decide)

/-- C7: every payload of `query_knowledge_base` is either a JSON array of
strings (the retrieved chunk texts) or a `JsonVal` object of the shape
`errorPayload msg` — the two shapes are mutually exclusive — and an
uninitialised store yields the structured unavailability error rather
than raising (the source's early `return` / `except` paths are total in
the embedding). -/
theorem C7_query_payload_shape (collection : Option Collection) (qt : List Char) (n : Int) :
    ((∃ docs : List (List Char),
        query_knowledge_base collection qt n = JsonVal.arr (docs.map JsonVal.str)) ∨
      (∃ msg, query_knowledge_base collection qt n = errorPayload msg)) ∧
    (∀ (xs : List JsonVal) (msg : List Char), JsonVal.arr xs ≠ errorPayload msg) ∧
    query_knowledge_base none qt n = errorPayload notAvailableMsg := by
  refine ⟨?_, fun xs msg h => JsonVal.noConfusion h, rfl⟩
  cases collection with
  | none => exact Or.inr ⟨notAvailableMsg, rfl⟩
  | some col =>
    cases hq : col.query qt n with
    | error e =>
      refine Or.inr ⟨queryErrMsgFor e, ?_⟩
      simp only [query_knowledge_base, hq]
    | ok docs =>
      cases docs with
      | nil =>
        refine Or.inr ⟨queryErrMsgFor indexErrMsg, ?_⟩
        simp only [query_knowledge_base, hq]
      | cons d0 dr =>
        refine Or.inl ⟨d0, ?_⟩
        simp only [query_knowledge_base, hq]

/-- C8: chunk ids are a deterministic function of (source basename,
sequence index): ingesting the same source twice with identical content
yields the identical id sequence (overwrite semantics), and ids derived
from distinct basenames never collide (the decimal index never contains
an underscore, so the `_chunk_` separator parses unambiguously). -/
theorem C8_id_determinism_no_collision :
    (∀ (base text : List Char) (ids1 ids2 : List (List Char)),
        ingestIds base text = some ids1 → ingestIds base text = some ids2 → ids1 = ids2) ∧
    (∀ a b : List Char, a ≠ b → ∀ i j : Nat, chunk_id a i ≠ chunk_id b j) := by
  constructor
  · intro base text ids1 ids2 h1 h2
    rw [h1] at h2
    exact Option.some.inj h2
  · intro a b hab i j hcontr
    exact hab (chunk_id_base_eq hcontr)

/-- Witness for C8: distinct basenames "a" and "b" give distinct ids. -/
theorem C8_id_determinism_no_collision_witness :
    chunk_id (("a").toList) 0 ≠ chunk_id (("b").toList) 7 :=
  C8_id_determinism_no_collision.2 (("a").toList) (("b").toList) (by decide) 0 7

/-- C9: on every exit path of the interactive session — sentinel exit
command, external interrupt, or a turn raising mid-processing (the
crash path) — the `finally` runs `client.close()` before the program
ends: whenever the session run has an exit reason, the close flag is
set. -/
theorem C9_close_on_every_exit (llm : List Char → List Char)
    (exec : JsonVal → JsonVal → Option (List Char)) :
    ∀ (events : List Event) (r : ExitReason),
      (runSession llm exec events).exit = some r →
      (runSession llm exec events).closed = true := by
  intro events
  induction events with
  | nil =>
    intro r h
    simp [runSession] at h
  | cons e rest ih =>
    intro r h
    cases e with
    | interrupt => rfl
    | line s =>
      by_cases hsent : asciiLower (pyStrip s) ∈ sentinels
      · rw [runSession_sentinel hsent]
      · by_cases hne : pyStrip s = []
        · rw [runSession_skip hsent hne] at h ⊢
          exact ih r h
        · cases hrt : runTurn llm exec (pyStrip s) with
          | uncaughtError => rw [runSession_crash hsent hne hrt]
          | conversation =>
            rw [runSession_cons_of_turn hsent hne hrt
              (fun hx => TurnOutcome.noConfusion hx)] at h ⊢
            exact ih r h
          | apology =>
            rw [runSession_cons_of_turn hsent hne hrt
              (fun hx => TurnOutcome.noConfusion hx)] at h ⊢
            exact ih r h
          | toolResponse d =>
            rw [runSession_cons_of_turn hsent hne hrt
              (fun hx => TurnOutcome.noConfusion hx)] at h ⊢
            exact ih r h

/-- Witness for C9 at a session that exits by the sentinel "quit". -/
theorem C9_close_on_every_exit_witness :
    (runSession (fun _ => ([] : List Char)) (fun _ _ => none)
      [Event.line (("quit").toList)]).closed = true :=
  C9_close_on_every_exit (fun _ => ([] : List Char)) (fun _ _ => none)
    [Event.line (("quit").toList)] ExitReason.sentinel rfl

/-- C10: counterexample — when the model outputs exactly the empty
object (the claim's own example), the extractor returns it, but the
empty Python dict is FALSY, so `if tool_call and ...` takes the graceful
conversational branch: the turn does NOT take the tool-dispatch branch
and nothing raises, contradicting both the claim's example and its
"only when" characterisation of the fallback. -/
theorem C10_counterexample :
    extract_tool_call (("\x7b\x7d").toList) = some (JsonVal.obj []) ∧
    runTurn (fun _ => ("\x7b\x7d").toList) (fun _ _ => none) (("hi").toList) =
      TurnOutcome.conversation :=
  ⟨rfl, rfl⟩

/-- C10 (amended): if the extractor returns a NON-EMPTY (truthy) object
lacking the "tool" key, the turn takes the dispatch branch and the
`tool_call['tool']` lookup raises outside the turn's error handler; the
graceful conversational fallback is taken exactly when extraction
returns `None`, returns a falsy (empty) object, or returns an object
whose "tool" field is the string "none". -/
theorem C10_amended_missing_tool_key (llm : List Char → List Char)
    (exec : JsonVal → JsonVal → Option (List Char)) (u : List Char) :
    (∀ v, extract_tool_call (llm u) = some v → pyTruthy v = true →
      jsonGet v toolKey = none → runTurn llm exec u = TurnOutcome.uncaughtError) ∧
    (runTurn llm exec u = TurnOutcome.conversation ↔
      (extract_tool_call (llm u) = none ∨
        ∃ v, extract_tool_call (llm u) = some v ∧
          (pyTruthy v = false ∨ jsonGet v toolKey = some (JsonVal.str noneStr)))) := by
  constructor
  · intro v hv htr hget
    unfold runTurn
    simp only [hv, dispatchCond, htr, hget, isNoneStr, Bool.not_false, Bool.and_self,
      if_true]
  · cases hv : extract_tool_call (llm u) with
    | none =>
      constructor
      · intro _
        exact Or.inl rfl
      · intro _
        unfold runTurn
        simp [hv, dispatchCond]
    | some v =>
      cases htr : pyTruthy v with
      | false =>
        constructor
        · intro _
          exact Or.inr ⟨v, rfl, Or.inl htr⟩
        · intro _
          unfold runTurn
          simp [hv, dispatchCond, htr]
      | true =>
        cases hget : jsonGet v toolKey with
        | none =>
          have huc : runTurn llm exec u = TurnOutcome.uncaughtError := by
            unfold runTurn
            simp only [hv, dispatchCond, htr, hget, isNoneStr, Bool.not_false,
              Bool.and_self, if_true]
          constructor
          · intro hcontr
            rw [huc] at hcontr
            exact TurnOutcome.noConfusion hcontr
          · rintro (h0 | ⟨v', hv', hcase⟩)
            · exact Option.noConfusion h0
            · obtain rfl : v = v' := Option.some.inj hv'
              rcases hcase with htf | hgs
              · rw [htr] at htf
                exact Bool.noConfusion htf
              · rw [hget] at hgs
                exact Option.noConfusion hgs
        | some nameVal =>
          by_cases hns : nameVal = JsonVal.str noneStr
          · subst hns
            constructor
            · intro _
              exact Or.inr ⟨v, rfl, Or.inr hget⟩
            · intro _
              unfold runTurn
              simp [hv, dispatchCond, htr, hget, isNoneStr]
          · constructor
            · intro hcontr
              rw [runTurn_eq_of_dispatch hv htr hget hns] at hcontr
              cases hexec : exec nameVal (jsonGetD v argsKey (JsonVal.obj [])) with
              | none =>
                rw [hexec] at hcontr
                exact TurnOutcome.noConfusion hcontr
              | some d =>
                rw [hexec] at hcontr
                exact TurnOutcome.noConfusion hcontr
            · rintro (h0 | ⟨v', hv', hcase⟩)
              · exact Option.noConfusion h0
              · obtain rfl : v = v' := Option.some.inj hv'
                rcases hcase with htf | hgs
                · rw [htr] at htf
                  exact Bool.noConfusion htf
                · rw [hget] at hgs
                  exact absurd (Option.some.inj hgs) hns

/-- Witness for C10's amended theorem: the non-empty object lacking a
"tool" key escapes the turn's handler. -/
theorem C10_amended_missing_tool_key_witness :
    runTurn (fun _ => ("\x7b\"a\": 1\x7d").toList) (fun _ _ => none) (("hi").toList) =
      TurnOutcome.uncaughtError :=
  (C10_amended_missing_tool_key (fun _ => ("\x7b\"a\": 1\x7d").toList) (fun _ _ => none)
    (("hi").toList)).1 (JsonVal.obj [((("a").toList), JsonVal.num 1)]) rfl rfl rfl
